import Mathlib

/-!
Shallow embedding of the hybrid-reliability UDP endpoint (`hudp.py`):
wire codec, send path, receiver dispatch, per-peer sessions with the
in-order delivery pump, the retransmitter tick, the registration and
deregistration handlers, and the shutdown path.  Byte strings are
`List Nat` (each element a byte value), addresses are opaque `Nat`
identifiers, and times are milliseconds as in the source.  Python
subtractions that may go negative are computed over `Int`.
-/

namespace HUDP

/-! ### Constants (hudp.py lines 4-20) -/

def DATA_HDR_LEN : Nat := 7

def ACK_HDR_LEN : Nat := 8

def ACK_FLAG : Nat := 0xFF

def CHANNEL_RELIABLE : Nat := 0

def CHANNEL_UNRELIABLE : Nat := 1

def CHANNEL_REGISTER : Nat := 2

def CHANNEL_DEREGISTER : Nat := 3

def DEFAULT_SKIP_MS : Nat := 200

def RETX_INTERVAL_MS : Nat := 50

/-! ### Wire codec (hudp.py `_pack_data`, `_unpack_data`, `_pack_ack`, `_unpack_ack`) -/

/-- Big-endian 16-bit encoding (struct format `H`), for `n < 2^16`. -/
def u16be (n : Nat) : List Nat := [n / 256, n % 256]

/-- Big-endian 32-bit encoding (struct format `I`), for `n < 2^32`. -/
def u32be (n : Nat) : List Nat :=
  [n / 16777216, n / 65536 % 256, n / 256 % 256, n % 256]

/-- Big-endian 16-bit decoding. -/
def u16of (hi lo : Nat) : Nat := hi * 256 + lo

/-- Big-endian 32-bit decoding. -/
def u32of (a b c d : Nat) : Nat := a * 16777216 + b * 65536 + c * 256 + d

/-- `_pack_data`: header `!B H I` (channel, seq & 0xFFFF, ts & 0xFFFFFFFF)
followed by the payload. -/
def pack_data (channel seq ts : Nat) (payload : List Nat) : List Nat :=
  channel :: (u16be (seq % 65536) ++ u32be (ts % 4294967296) ++ payload)

/-- `_unpack_data`: `None` when shorter than the 7-byte header, otherwise
`(channel, seq, timestamp, payload)`. -/
def unpack_data (d : List Nat) : Option (Nat × Nat × Nat × List Nat) :=
  match d with
  | b0 :: b1 :: b2 :: b3 :: b4 :: b5 :: b6 :: rest =>
      some (b0, u16of b1 b2, u32of b3 b4 b5 b6, rest)
  | _ => none

/-- `_pack_ack`: `!B B H I` = channel 0, flag 0xFF, seq, timestamp. -/
def pack_ack (seq ts : Nat) : List Nat :=
  CHANNEL_RELIABLE :: ACK_FLAG :: (u16be (seq % 65536) ++ u32be (ts % 4294967296))

/-- `_unpack_ack`: `None` when shorter than 8 bytes or when the second byte
is not `0xFF`; otherwise `(seq, timestamp)` read from the first 8 bytes.
Note the source only checks `len(data) < ACK_HDR_LEN`, so longer datagrams
whose second byte is `0xFF` are also accepted here. -/
def unpack_ack (d : List Nat) : Option (Nat × Nat) :=
  match d with
  | _ :: b1 :: b2 :: b3 :: b4 :: b5 :: b6 :: b7 :: _ =>
      if b1 = ACK_FLAG then some (u16of b2 b3, u32of b4 b5 b6 b7) else none
  | _ => none

/-- C9: The wire codec round-trips.  Unpacking a packed data frame returns
exactly the channel, sequence, timestamp and payload; packing the result of
unpacking any well-formed data frame (length at least 7, all elements byte
values) returns the original bytes; and unpacking a packed ACK frame returns
exactly the sequence and timestamp. -/
theorem codec_round_trip :
    (∀ ch seq ts (p : List Nat), ch < 256 → seq < 65536 → ts < 4294967296 →
      unpack_data (pack_data ch seq ts p) = some (ch, seq, ts, p)) ∧
    (∀ (d : List Nat) ch seq ts p, (∀ b ∈ d, b < 256) →
      unpack_data d = some (ch, seq, ts, p) → pack_data ch seq ts p = d) ∧
    (∀ seq ts, seq < 65536 → ts < 4294967296 →
      unpack_ack (pack_ack seq ts) = some (seq, ts)) := by
  refine ⟨?_, ?_, ?_⟩
  · intro ch seq ts p _ hseq hts
    simp only [pack_data, u16be, u32be, unpack_data, u16of, u32of,
      List.cons_append, List.nil_append, Option.some.injEq, Prod.mk.injEq]
    refine ⟨trivial, by omega, by omega, trivial⟩
  · intro d ch seq ts p hbytes hun
    match d with
    | b0 :: b1 :: b2 :: b3 :: b4 :: b5 :: b6 :: rest =>
      simp only [unpack_data, Option.some.injEq, Prod.mk.injEq] at hun
      obtain ⟨h0, h1, h2, h3⟩ := hun
      have hb1 : b1 < 256 := hbytes b1 (by simp)
      have hb2 : b2 < 256 := hbytes b2 (by simp)
      have hb3 : b3 < 256 := hbytes b3 (by simp)
      have hb4 : b4 < 256 := hbytes b4 (by simp)
      have hb5 : b5 < 256 := hbytes b5 (by simp)
      have hb6 : b6 < 256 := hbytes b6 (by simp)
      subst h0 h1 h2 h3
      simp only [pack_data, u16be, u32be, u16of, u32of, List.cons_append,
        List.nil_append, List.cons.injEq]
      refine ⟨trivial, by omega, by omega, by omega, by omega, by omega, by omega, trivial⟩
  · intro seq ts hseq hts
    simp only [pack_ack, u16be, u32be, unpack_ack, u16of, u32of, ACK_FLAG,
      CHANNEL_RELIABLE, List.cons_append, List.nil_append, if_pos,
      Option.some.injEq, Prod.mk.injEq]
    constructor <;> omega

/-- Witness for `codec_round_trip` at concrete inputs. -/
theorem codec_round_trip_witness :
    unpack_data (pack_data 2 65535 7 [9, 9]) = some (2, 65535, 7, [9, 9]) ∧
    pack_data 0 511 1 [5] = [0, 1, 255, 0, 0, 0, 1, 5] ∧
    unpack_ack (pack_ack 3 4) = some (3, 4) := by
  refine ⟨codec_round_trip.1 2 65535 7 [9, 9] (by decide) (by decide) (by decide),
    codec_round_trip.2.1 [0, 1, 255, 0, 0, 0, 1, 5] 0 511 1 [5] (by decide) (by decide),
    codec_round_trip.2.2 3 4 (by decide) (by decide)⟩

/-! ### Association lists

Python `dict`s (`sent_buffer`, `sessions`, `recv_buffer`) are modelled as
insertion-ordered association lists: assignment replaces in place when the
key is present and appends otherwise; `del`/`pop` removes the key. -/

/-- Dictionary lookup. -/
def alistGet {α β : Type} [DecidableEq α] (l : List (α × β)) (k : α) : Option β :=
  match l with
  | [] => none
  | (k', v) :: rest => if k' = k then some v else alistGet rest k

/-- Dictionary assignment `d[k] = v`. -/
def alistSet {α β : Type} [DecidableEq α] (l : List (α × β)) (k : α) (v : β) :
    List (α × β) :=
  match l with
  | [] => [(k, v)]
  | (k', v') :: rest => if k' = k then (k, v) :: rest else (k', v') :: alistSet rest k v

/-- Dictionary removal `del d[k]` / `d.pop(k, None)`. -/
def alistErase {α β : Type} [DecidableEq α] (l : List (α × β)) (k : α) :
    List (α × β) :=
  l.filter (fun p => p.1 ≠ k)

theorem alistGet_eq_none {α β : Type} [DecidableEq α] (l : List (α × β)) (k : α) :
    alistGet l k = none ↔ k ∉ l.map Prod.fst := by
  induction l with
  | nil => simp [alistGet]
  | cons p rest ih =>
    obtain ⟨k', v⟩ := p
    by_cases h : k' = k
    · subst h; simp [alistGet]
    · have h2 : ¬k = k' := fun e => h e.symm
      simp only [alistGet, if_neg h, List.map_cons, List.mem_cons, ih]
      tauto

theorem alistGet_mem {α β : Type} [DecidableEq α] (l : List (α × β)) (k : α) (v : β)
    (h : alistGet l k = some v) : k ∈ l.map Prod.fst := by
  by_contra hk
  rw [← alistGet_eq_none l k] at hk
  simp [hk] at h

theorem alistGet_isSome_of_mem {α β : Type} [DecidableEq α] (l : List (α × β)) (k : α)
    (h : k ∈ l.map Prod.fst) : ∃ v, alistGet l k = some v := by
  cases hg : alistGet l k with
  | none => exact absurd ((alistGet_eq_none l k).1 hg) (by simp [h])
  | some v => exact ⟨v, rfl⟩

theorem alistSet_keys {α β : Type} [DecidableEq α] (l : List (α × β)) (k : α) (v : β) :
    (alistSet l k v).map Prod.fst =
      if k ∈ l.map Prod.fst then l.map Prod.fst else l.map Prod.fst ++ [k] := by
  induction l with
  | nil => simp [alistSet]
  | cons p rest ih =>
    obtain ⟨k', v'⟩ := p
    by_cases h : k' = k
    · subst h; simp [alistSet]
    · simp only [alistSet, if_neg h, List.map_cons, ih]
      by_cases hm : k ∈ rest.map Prod.fst <;>
        simp [hm, h, Ne.symm h, List.mem_cons]

theorem alistSet_keys_nodup {α β : Type} [DecidableEq α] (l : List (α × β)) (k : α)
    (v : β) (h : (l.map Prod.fst).Nodup) : ((alistSet l k v).map Prod.fst).Nodup := by
  rw [alistSet_keys]
  by_cases hm : k ∈ l.map Prod.fst
  · simpa [hm]
  · simpa [hm] using List.Nodup.append h (List.nodup_singleton k)
      (by simpa using fun hx => hm hx)

theorem alistGet_set_self {α β : Type} [DecidableEq α] (l : List (α × β)) (k : α)
    (v : β) : alistGet (alistSet l k v) k = some v := by
  induction l with
  | nil => simp [alistSet, alistGet]
  | cons p rest ih =>
    obtain ⟨k', v'⟩ := p
    by_cases h : k' = k <;> simp [alistSet, alistGet, h, ih]

theorem alistErase_cons {α β : Type} [DecidableEq α] (k k' : α) (v' : β)
    (rest : List (α × β)) :
    alistErase ((k', v') :: rest) k =
      if k' = k then alistErase rest k else (k', v') :: alistErase rest k := by
  by_cases h : k' = k <;> simp [alistErase, List.filter_cons, h]

theorem alistErase_keys {α β : Type} [DecidableEq α] (l : List (α × β)) (k : α) :
    (alistErase l k).map Prod.fst = (l.map Prod.fst).filter (fun x => x ≠ k) := by
  induction l with
  | nil => simp [alistErase]
  | cons p rest ih =>
    obtain ⟨k', v'⟩ := p
    by_cases h : k' = k <;>
      simp [alistErase_cons, h, ih, List.filter_cons]

theorem alistErase_keys_nodup {α β : Type} [DecidableEq α] (l : List (α × β)) (k : α)
    (h : (l.map Prod.fst).Nodup) : ((alistErase l k).map Prod.fst).Nodup := by
  rw [alistErase_keys]; exact h.filter _

theorem mem_alistErase_keys {α β : Type} [DecidableEq α] (l : List (α × β)) (k k' : α) :
    k' ∈ (alistErase l k).map Prod.fst ↔ k' ∈ l.map Prod.fst ∧ k' ≠ k := by
  rw [alistErase_keys, List.mem_filter]; simp

/-! ### Forward distance and the Python `min` with key -/

/-- Python `(s - e) & 0xFFFF` on arbitrary integers. -/
def fdist (s e : Nat) : Nat := (((s : Int) - (e : Int)) % 65536).toNat

theorem fdist_eq (s e : Nat) (he : e < 65536) :
    fdist s e = (s + 65536 - e) % 65536 := by
  unfold fdist; omega

theorem fdist_lt (s e : Nat) : fdist s e < 65536 := by
  unfold fdist; omega

theorem fdist_eq_zero_iff (s e : Nat) (hs : s < 65536) (he : e < 65536) :
    fdist s e = 0 ↔ s = e := by
  unfold fdist; omega

theorem fdist_succ (s e : Nat) (hs : s < 65536) (he : e < 65536)
    (h : 1 ≤ fdist s e) : fdist s ((e + 1) % 65536) = fdist s e - 1 := by
  unfold fdist at *; omega

theorem fdist_shift (s e t : Nat) (hs : s < 65536) (he : e < 65536) (ht : t < 65536)
    (h : fdist t e ≤ fdist s e) : fdist s t = fdist s e - fdist t e := by
  unfold fdist at *; omega

theorem fdist_inj (s s' e : Nat) (hs : s < 65536) (hs' : s' < 65536)
    (h : fdist s e = fdist s' e) : s = s' := by
  unfold fdist at h; omega

/-- Python `min(keys, key=f)`: first element attaining the minimum of `f`. -/
def minBy (f : Nat → Nat) : List Nat → Option Nat
  | [] => none
  | x :: xs => some (xs.foldl (fun best y => if f y < f best then y else best) x)

theorem minBy_foldl_mem (f : Nat → Nat) (xs : List Nat) (a : Nat) :
    xs.foldl (fun best y => if f y < f best then y else best) a = a ∨
      xs.foldl (fun best y => if f y < f best then y else best) a ∈ xs := by
  induction xs generalizing a with
  | nil => left; rfl
  | cons x xs ih =>
    simp only [List.foldl_cons]
    rcases ih (if f x < f a then x else a) with h | h
    · by_cases hx : f x < f a
      · right; rw [h, if_pos hx]; exact List.mem_cons_self x xs
      · left; rw [h, if_neg hx]
    · right; exact List.mem_cons_of_mem x h

theorem minBy_foldl_le (f : Nat → Nat) (xs : List Nat) (a : Nat) :
    f (xs.foldl (fun best y => if f y < f best then y else best) a) ≤ f a ∧
      ∀ y ∈ xs, f (xs.foldl (fun best y => if f y < f best then y else best) a) ≤ f y := by
  induction xs generalizing a with
  | nil => exact ⟨le_refl _, by simp⟩
  | cons x xs ih =>
    simp only [List.foldl_cons]
    by_cases hx : f x < f a
    · rw [if_pos hx]
      obtain ⟨h1, h2⟩ := ih x
      refine ⟨le_trans h1 (le_of_lt hx), ?_⟩
      intro y hy
      rcases List.mem_cons.1 hy with rfl | hy
      · exact h1
      · exact h2 y hy
    · rw [if_neg hx]
      obtain ⟨h1, h2⟩ := ih a
      refine ⟨h1, ?_⟩
      intro y hy
      rcases List.mem_cons.1 hy with rfl | hy
      · exact le_trans h1 (le_of_not_lt hx)
      · exact h2 y hy

theorem minBy_spec (f : Nat → Nat) (l : List Nat) (hl : l ≠ []) :
    ∃ s, minBy f l = some s ∧ s ∈ l ∧ ∀ y ∈ l, f s ≤ f y := by
  match l with
  | x :: xs =>
    refine ⟨xs.foldl (fun best y => if f y < f best then y else best) x, rfl, ?_, ?_⟩
    · rcases minBy_foldl_mem f xs x with h | h
      · rw [h]; exact List.mem_cons_self x xs
      · exact List.mem_cons_of_mem x h
    · intro y hy
      obtain ⟨h1, h2⟩ := minBy_foldl_le f xs x
      rcases List.mem_cons.1 hy with rfl | hy
      · exact h1
      · exact h2 y hy

/-! ### Data model (hudp.py `__init__`) -/

/-- Remote addresses, opaque identifiers standing for `(ip, port)` pairs. -/
abbrev Addr := Nat

/-- The metrics dictionary.  `invalid_packets` is absent initially in the
source (`setdefault` inserts it on first use); it is modelled as a counter
starting at 0, which is observationally identical. -/
structure Metrics where
  sent_reliable : Nat
  sent_unreliable : Nat
  recv_reliable : Nat
  recv_unreliable : Nat
  reliable_acks_recv : Nat
  retransmissions : Nat
  lost_marked : Nat
  sent_reg : Nat
  recv_reg : Nat
  reg_acks_recv : Nat
  registrations : Nat
  invalid_packets : Nat
deriving Repr, DecidableEq

/-- A reorder-buffer value `(ts, payload, arrival_ms)`. -/
structure BufEntry where
  ts : Nat
  payload : List Nat
  arrival : Nat
deriving Repr, DecidableEq

/-- A per-peer receive session. -/
structure Session where
  recv_next_expected : Nat
  recv_buffer : List (Nat × BufEntry)
  last_seen : Nat
deriving Repr, DecidableEq

/-- A sender in-flight entry.  Optional dictionary keys of the source
(`is_registration`, `is_deregister`, `addr`) are fields with the defaults
the source's `.get` lookups produce. -/
structure SentEntry where
  pkt : List Nat
  first_send_ms : Nat
  last_send_ms : Nat
  acked : Bool
  retrans_count : Nat
  is_registration : Bool := false
  is_deregister : Bool := false
  addr : Option Addr := none
deriving Repr, DecidableEq

/-- The endpoint state (socket, threads and locks are external to the
embedding; datagrams written to the socket are returned as outputs). -/
structure State where
  peer_addr : Option Addr
  registered_peers : List Addr
  sessions : List (Addr × Session)
  sent_buffer : List (Nat × SentEntry)
  next_seq_reliable : Nat
  next_seq_unreliable : Nat
  skip_threshold_ms : Nat
  max_buffered : Nat
  metrics : Metrics
deriving Repr, DecidableEq

/-- A datagram written to the socket: destination and bytes. -/
abbrev Out := Addr × List Nat

/-! ### In-order delivery pump (`_deliver_in_order_locked`) -/

/-- What one pump iteration did: a delivery to the callback, a skip of a
hole, or no progress. -/
inductive PumpAction where
  | delivered (seq ts : Nat) (payload : List Nat)
  | skipped (target : Nat)
  | stop
deriving Repr, DecidableEq

/-- One iteration of the `while progressed` loop in
`_deliver_in_order_locked`.  `cbRaises` models whether the application
callback raises; the source catches the exception, so it has no effect on
the resulting state.  `now` is the value `now_ms()` reads this iteration. -/
def pump_step (skip_ms : Nat) (now : Nat) (cbRaises : Bool) (sess : Session)
    (m : Metrics) : Session × Metrics × PumpAction :=
  let expected := sess.recv_next_expected
  match alistGet sess.recv_buffer expected with
  | some info =>
    ({ sess with
        recv_buffer := alistErase sess.recv_buffer expected,
        recv_next_expected := (expected + 1) % 65536 },
      { m with recv_reliable := m.recv_reliable + 1 },
      .delivered expected info.ts info.payload)
  | none =>
    match minBy (fun s => fdist s expected) (sess.recv_buffer.map Prod.fst) with
    | none => (sess, m, .stop)
    | some earliest =>
      match alistGet sess.recv_buffer earliest with
      | none => (sess, m, .stop)
      | some einfo =>
        if (skip_ms : Int) ≤ (now : Int) - (einfo.arrival : Int) then
          ({ sess with recv_next_expected := earliest },
            { m with lost_marked := m.lost_marked + 1 }, .skipped earliest)
        else (sess, m, .stop)

/-- The full pump loop, fuel-bounded.  The source loop terminates because a
delivery shrinks the buffer and a skip is immediately followed by a
delivery; any fuel of at least `2 * buffer size + 1` reaches the fixpoint. -/
def pump (skip_ms : Nat) (now : Nat) (cbRaises : Bool) :
    Nat → Session → Metrics → Session × Metrics × List PumpAction
  | 0, sess, m => (sess, m, [])
  | fuel + 1, sess, m =>
    match pump_step skip_ms now cbRaises sess m with
    | (_, _, .stop) => (sess, m, [])
    | (sess', m', a) =>
      let r := pump skip_ms now cbRaises fuel sess' m'
      (r.1, r.2.1, a :: r.2.2)

/-! ### Reliable receive path (`_handle_reliable`) -/

/-- The session-level effect of `_handle_reliable` on an existing session:
update `last_seen`, admit the frame into the reorder buffer when its
forward distance from expected-next is below `max_buffered`, then pump. -/
def sessRecv (mb skip_ms : Nat) (cbRaises : Bool) (sess : Session) (m : Metrics)
    (seq ts : Nat) (payload : List Nat) (arrival now fuel : Nat) :
    Session × Metrics × List PumpAction :=
  let sess0 := { sess with last_seen := arrival }
  let sess1 :=
    if fdist seq sess0.recv_next_expected < mb then
      { sess0 with recv_buffer := alistSet sess0.recv_buffer seq ⟨ts, payload, arrival⟩ }
    else sess0
  pump skip_ms now cbRaises fuel sess1 m

/-- `_handle_reliable`: look up or create the session, send an ACK echoing
`(seq, ts)`, run admission control and the delivery pump.  The returned
list of datagrams holds the ACK; the `PumpAction` list records deliveries. -/
def handle_reliable (st : State) (addr : Addr) (seq ts : Nat) (payload : List Nat)
    (arrival now fuel : Nat) (cbRaises : Bool) :
    State × List Out × List PumpAction :=
  let sess0 :=
    match alistGet st.sessions addr with
    | none => ⟨(seq + 1) % 65536, [], arrival⟩
    | some s => s
  let r := sessRecv st.max_buffered st.skip_threshold_ms cbRaises sess0 st.metrics
    seq ts payload arrival now fuel
  ({ st with sessions := alistSet st.sessions addr r.1, metrics := r.2.1 },
    [(addr, pack_ack seq ts)], r.2.2)

/-! ### Registration, deregistration, ACK handling -/

/-- `_handle_registration` (receiver side). -/
def handle_registration (st : State) (addr : Addr) (seq ts now : Nat) :
    State × List Out :=
  let m1 := { st.metrics with recv_reg := st.metrics.recv_reg + 1 }
  let sessions' :=
    match alistGet st.sessions addr with
    | none => alistSet st.sessions addr ⟨(seq + 1) % 65536, [], now⟩
    | some sess => alistSet st.sessions addr { sess with last_seen := now }
  let st1 :=
    if addr ∈ st.registered_peers then
      { st with sessions := sessions', metrics := m1 }
    else
      { st with
          sessions := sessions',
          registered_peers := st.registered_peers ++ [addr],
          metrics := { m1 with registrations := m1.registrations + 1 } }
  (st1, [(addr, pack_ack seq ts)])

/-- `_handle_deregistration`. -/
def handle_deregistration (st : State) (addr : Addr) (seq ts : Nat) :
    State × List Out :=
  ({ st with
      sessions := alistErase st.sessions addr,
      registered_peers := st.registered_peers.filter (fun a => a ≠ addr) },
    [(addr, pack_ack seq ts)])

/-- `_handle_ack`: mark and remove the in-flight entry for `seq`, counting
the appropriate ACK metric.  An ACK with no matching entry is ignored. -/
def handle_ack (st : State) (seq ts : Nat) : State :=
  match alistGet st.sent_buffer seq with
  | none => st
  | some info =>
    let m := st.metrics
    let m' :=
      if info.is_registration then
        { m with reg_acks_recv := m.reg_acks_recv + 1 }
      else if info.is_deregister then m
      else { m with reliable_acks_recv := m.reliable_acks_recv + 1 }
    { st with metrics := m', sent_buffer := alistErase st.sent_buffer seq }

/-! ### Reader dispatch (`_recv_loop` body) -/

/-- A delivery to the application callback. -/
structure RecvEvent where
  channel : Nat
  seq : Nat
  ts : Nat
  payload : List Nat
deriving Repr, DecidableEq

/-- The body of `_recv_loop` for one received datagram `data` from `addr`:
try the ACK parser first, then the data parser, then dispatch on channel.
Returns the new state, datagrams written, and callback deliveries. -/
def recv_step (st : State) (addr : Addr) (data : List Nat) (now fuel : Nat)
    (cbRaises : Bool) : State × List Out × List RecvEvent :=
  match unpack_ack data with
  | some (seq, ts) => (handle_ack st seq ts, [], [])
  | none =>
    match unpack_data data with
    | none => (st, [], [])
    | some (channel, seq, ts, payload) =>
      if channel = CHANNEL_REGISTER then
        let r := handle_registration st addr seq ts now
        (r.1, r.2, [])
      else if channel = CHANNEL_DEREGISTER then
        let r := handle_deregistration st addr seq ts
        (r.1, r.2, [])
      else if channel = CHANNEL_UNRELIABLE then
        ({ st with metrics :=
            { st.metrics with recv_unreliable := st.metrics.recv_unreliable + 1 } },
          [], [⟨CHANNEL_UNRELIABLE, seq, ts, payload⟩])
      else if channel = CHANNEL_RELIABLE then
        if addr ∈ st.registered_peers then
          let r := handle_reliable st addr seq ts payload now now fuel cbRaises
          (r.1, r.2.1, r.2.2.map fun a =>
            match a with
            | .delivered s t p => ⟨CHANNEL_RELIABLE, s, t, p⟩
            | _ => ⟨CHANNEL_RELIABLE, 0, 0, []⟩)
        else (st, [], [])
      else
        ({ st with metrics :=
            { st.metrics with invalid_packets := st.metrics.invalid_packets + 1 } },
          [], [])

/-! ### Send path (`send`) -/

/-- Outcome of `send`: `noPeer` models the `RuntimeError` raised when no
peer address is configured, `notRegistered` the `None` return of a blocked
reliable send, and `sent` the `(seq, timestamp)` return. -/
inductive SendResult where
  | noPeer
  | notRegistered
  | sent (seq ts : Nat)
deriving Repr, DecidableEq

/-- `send(payload, reliable)`.  The source selects the reliable channel
when the `reliable` argument equals `CHANNEL_RELIABLE` (0) and the
unreliable channel otherwise. -/
def send (st : State) (payload : List Nat) (reliable : Nat) (now : Nat) :
    SendResult × State × List Out :=
  match st.peer_addr with
  | none => (.noPeer, st, [])
  | some peer =>
    if reliable = CHANNEL_RELIABLE ∧ peer ∉ st.registered_peers then
      (.notRegistered, st, [])
    else if reliable = CHANNEL_RELIABLE then
      let seq := st.next_seq_reliable
      let pkt := pack_data CHANNEL_RELIABLE seq now payload
      (.sent seq now,
        { st with
            next_seq_reliable := (st.next_seq_reliable + 1) % 65536,
            metrics := { st.metrics with sent_reliable := st.metrics.sent_reliable + 1 },
            sent_buffer := alistSet st.sent_buffer seq
              { pkt := pkt, first_send_ms := now, last_send_ms := now,
                acked := false, retrans_count := 0 } },
        [(peer, pkt)])
    else
      let seq := st.next_seq_unreliable
      let pkt := pack_data CHANNEL_UNRELIABLE seq now payload
      (.sent seq now,
        { st with
            next_seq_unreliable := (st.next_seq_unreliable + 1) % 65536,
            metrics := { st.metrics with sent_unreliable := st.metrics.sent_unreliable + 1 } },
        [(peer, pkt)])

/-! ### Retransmitter (`_retrans_loop` body, per entry) -/

/-- The processing of a single in-flight entry by one tick of the
retransmit loop at time `now`: `none` means the entry is collected into
`to_remove` and popped; otherwise the (possibly updated) entry is kept.
Also returns the updated metrics and any datagram sent. -/
def tick_entry (peer : Option Addr) (skip_ms now : Nat) (e : SentEntry)
    (m : Metrics) : Option SentEntry × Metrics × List Out :=
  if e.acked then (none, m, [])
  else if (skip_ms : Int) ≤ (now : Int) - (e.first_send_ms : Int) then
    (none, { m with lost_marked := m.lost_marked + 1 }, [])
  else if (RETX_INTERVAL_MS : Int) ≤ (now : Int) - (e.last_send_ms : Int) then
    match e.addr.orElse (fun _ => peer) with
    | some dest =>
      (some { e with last_send_ms := now, retrans_count := e.retrans_count + 1 },
        { m with retransmissions := m.retransmissions + 1 }, [(dest, e.pkt)])
    | none => (some e, m, [])
  else (some e, m, [])

/-! ### Shutdown (`stop`) -/

/-- The state effect of `stop()` (thread joins and the socket close are
external; `seq` and `now` are the random sequence and clock reads used by
the deregister branch; the blocking wait for the deregister ACK is not part
of the state transition, whose net effect on `sent_buffer` is `clear()`). -/
def stop_state (st : State) (seq now : Nat) : State × List Out :=
  let r :=
    match st.peer_addr with
    | some p =>
      if p ∈ st.registered_peers then
        ({ st with sent_buffer := [] },
          [(p, pack_data CHANNEL_DEREGISTER seq now [])])
      else (st, [])
    | none => (st, [])
  let st1 := r.1
  let st2 :=
    match st1.peer_addr with
    | none => if st1.sessions.length = 0 then { st1 with sessions := [] } else st1
    | some _ => st1
  ({ st2 with registered_peers := [] }, r.2)

/-! ### Equation lemmas for the pump -/

theorem pump_step_eq_deliver (skip now : Nat) (cb : Bool) (sess : Session)
    (m : Metrics) (info : BufEntry)
    (hget : alistGet sess.recv_buffer sess.recv_next_expected = some info) :
    pump_step skip now cb sess m =
      ({ sess with
          recv_buffer := alistErase sess.recv_buffer sess.recv_next_expected,
          recv_next_expected := (sess.recv_next_expected + 1) % 65536 },
        { m with recv_reliable := m.recv_reliable + 1 },
        .delivered sess.recv_next_expected info.ts info.payload) := by
  simp [pump_step, hget]

theorem pump_step_eq_skip (skip now : Nat) (cb : Bool) (sess : Session)
    (m : Metrics) (s : Nat) (einfo : BufEntry)
    (hget : alistGet sess.recv_buffer sess.recv_next_expected = none)
    (hmin : minBy (fun x => fdist x sess.recv_next_expected)
      (sess.recv_buffer.map Prod.fst) = some s)
    (hein : alistGet sess.recv_buffer s = some einfo)
    (hc : (skip : Int) ≤ (now : Int) - (einfo.arrival : Int)) :
    pump_step skip now cb sess m =
      ({ sess with recv_next_expected := s },
        { m with lost_marked := m.lost_marked + 1 }, .skipped s) := by
  simp [pump_step, hget, hmin, hein, hc]

theorem pump_step_eq_stop_wait (skip now : Nat) (cb : Bool) (sess : Session)
    (m : Metrics) (s : Nat) (einfo : BufEntry)
    (hget : alistGet sess.recv_buffer sess.recv_next_expected = none)
    (hmin : minBy (fun x => fdist x sess.recv_next_expected)
      (sess.recv_buffer.map Prod.fst) = some s)
    (hein : alistGet sess.recv_buffer s = some einfo)
    (hc : ¬ (skip : Int) ≤ (now : Int) - (einfo.arrival : Int)) :
    pump_step skip now cb sess m = (sess, m, .stop) := by
  simp [pump_step, hget, hmin, hein, hc]

theorem pump_step_eq_stop_empty (skip now : Nat) (cb : Bool) (sess : Session)
    (m : Metrics)
    (hget : alistGet sess.recv_buffer sess.recv_next_expected = none)
    (hmin : minBy (fun x => fdist x sess.recv_next_expected)
      (sess.recv_buffer.map Prod.fst) = none) :
    pump_step skip now cb sess m = (sess, m, .stop) := by
  simp [pump_step, hget, hmin]

theorem pump_empty (skip now : Nat) (cb : Bool) (fuel : Nat) (sess : Session)
    (m : Metrics) (h : sess.recv_buffer = []) :
    pump skip now cb fuel sess m = (sess, m, []) := by
  cases fuel with
  | zero => rfl
  | succ n =>
    have hget : alistGet sess.recv_buffer sess.recv_next_expected = none := by
      rw [h]; rfl
    have hmin : minBy (fun x => fdist x sess.recv_next_expected)
        (sess.recv_buffer.map Prod.fst) = none := by
      rw [h]; rfl
    unfold pump
    rw [pump_step_eq_stop_empty skip now cb sess m hget hmin]

/-! ### Reorder-buffer invariant -/

/-- The session invariant: buffered keys are distinct 16-bit values inside
the admission window of forward distance less than `max_buffered` from
expected-next, and expected-next is itself a 16-bit value. -/
def seqWindow (mb : Nat) (sess : Session) : Prop :=
  (sess.recv_buffer.map Prod.fst).Nodup ∧
  sess.recv_next_expected < 65536 ∧
  ∀ k ∈ sess.recv_buffer.map Prod.fst, k < 65536 ∧ fdist k sess.recv_next_expected < mb

theorem seqWindow_length_le (mb : Nat) (sess : Session) (h : seqWindow mb sess) :
    sess.recv_buffer.length ≤ mb := by
  obtain ⟨hnd, hexp, hw⟩ := h
  set keys := sess.recv_buffer.map Prod.fst with hk
  have hlen : sess.recv_buffer.length = keys.length := (List.length_map _ _).symm
  have hmapnd : (keys.map (fun k => fdist k sess.recv_next_expected)).Nodup := by
    refine hnd.map_on ?_
    intro x hx y hy hxy
    exact fdist_inj x y sess.recv_next_expected (hw x hx).1 (hw y hy).1 hxy
  have hsub : (keys.map (fun k => fdist k sess.recv_next_expected)).toFinset ⊆
      Finset.range mb := by
    intro x hx
    rw [List.mem_toFinset] at hx
    obtain ⟨k, hk, rfl⟩ := List.mem_map.1 hx
    exact Finset.mem_range.2 (hw k hk).2
  have := Finset.card_le_card hsub
  rw [List.toFinset_card_of_nodup hmapnd, Finset.card_range, List.length_map] at this
  omega

theorem pump_step_preserves (mb skip now : Nat) (cb : Bool) (sess : Session)
    (m : Metrics) (h : seqWindow mb sess) :
    seqWindow mb (pump_step skip now cb sess m).1 := by
  obtain ⟨hnd, hexp, hw⟩ := h
  cases hget : alistGet sess.recv_buffer sess.recv_next_expected with
  | some info =>
    rw [pump_step_eq_deliver skip now cb sess m info hget]
    refine ⟨alistErase_keys_nodup _ _ hnd, Nat.mod_lt _ (by omega), ?_⟩
    intro k hkmem
    obtain ⟨hkin, hkne⟩ := (mem_alistErase_keys _ _ _).1 hkmem
    obtain ⟨hklt, hkd⟩ := hw k hkin
    have h1 : 1 ≤ fdist k sess.recv_next_expected := by
      rcases Nat.eq_zero_or_pos (fdist k sess.recv_next_expected) with h0 | h0
      · exact absurd ((fdist_eq_zero_iff k _ hklt hexp).1 h0) hkne
      · omega
    refine ⟨hklt, ?_⟩
    rw [fdist_succ k sess.recv_next_expected hklt hexp h1]
    omega
  | none =>
    cases hmin : minBy (fun x => fdist x sess.recv_next_expected)
        (sess.recv_buffer.map Prod.fst) with
    | none =>
      rw [pump_step_eq_stop_empty skip now cb sess m hget hmin]
      exact ⟨hnd, hexp, hw⟩
    | some s =>
      have hkeys : sess.recv_buffer.map Prod.fst ≠ [] := by
        intro hnil
        rw [hnil] at hmin
        simp [minBy] at hmin
      obtain ⟨s', hs'eq, hs'mem, hs'min⟩ :=
        minBy_spec (fun x => fdist x sess.recv_next_expected) _ hkeys
      rw [hmin] at hs'eq
      obtain rfl := Option.some.inj hs'eq
      obtain ⟨einfo, hein⟩ := alistGet_isSome_of_mem _ _ hs'mem
      obtain ⟨hslt, hsd⟩ := hw s hs'mem
      by_cases hc : (skip : Int) ≤ (now : Int) - (einfo.arrival : Int)
      · rw [pump_step_eq_skip skip now cb sess m s einfo hget hmin hein hc]
        refine ⟨hnd, hslt, ?_⟩
        intro k hkmem
        obtain ⟨hklt, hkd⟩ := hw k hkmem
        refine ⟨hklt, ?_⟩
        rw [fdist_shift k sess.recv_next_expected s hklt hexp hslt (hs'min k hkmem)]
        omega
      · rw [pump_step_eq_stop_wait skip now cb sess m s einfo hget hmin hein hc]
        exact ⟨hnd, hexp, hw⟩

theorem pump_preserves (mb skip now : Nat) (cb : Bool) (fuel : Nat) (sess : Session)
    (m : Metrics) (h : seqWindow mb sess) :
    seqWindow mb (pump skip now cb fuel sess m).1 := by
  induction fuel generalizing sess m with
  | zero => exact h
  | succ n ih =>
    have hps := pump_step_preserves mb skip now cb sess m h
    unfold pump
    rcases hstep : pump_step skip now cb sess m with ⟨sess', m', a⟩
    rw [hstep] at hps
    cases a with
    | stop => exact h
    | delivered s t p => exact ih sess' m' hps
    | skipped t => exact ih sess' m' hps

theorem sessRecv_preserves (mb skip : Nat) (cb : Bool) (sess : Session) (m : Metrics)
    (seq ts : Nat) (p : List Nat) (arrival now fuel : Nat)
    (hseq : seq < 65536) (h : seqWindow mb sess) :
    seqWindow mb (sessRecv mb skip cb sess m seq ts p arrival now fuel).1 := by
  obtain ⟨hnd, hexp, hw⟩ := h
  simp only [sessRecv]
  by_cases hadm : fdist seq sess.recv_next_expected < mb
  · rw [if_pos hadm]
    refine pump_preserves mb skip now cb fuel _ m ?_
    refine ⟨alistSet_keys_nodup _ _ _ hnd, hexp, ?_⟩
    intro k hkmem
    rw [alistSet_keys] at hkmem
    by_cases hsm : seq ∈ sess.recv_buffer.map Prod.fst
    · rw [if_pos hsm] at hkmem
      exact hw k hkmem
    · rw [if_neg hsm] at hkmem
      rcases List.mem_append.1 hkmem with hkin | hknew
      · exact hw k hkin
      · obtain rfl : k = seq := by simpa using hknew
        exact ⟨hseq, hadm⟩
  · rw [if_neg hadm]
    exact pump_preserves mb skip now cb fuel _ m ⟨hnd, hexp, hw⟩

/-! ### Operation sequences on a session (for the invariant claim) -/

/-- An operation on a single per-peer session: arrival of a reliable frame
(`_handle_reliable`'s admission plus pump) or a standalone run of the
delivery pump. -/
inductive SessOp where
  | frame (seq ts : Nat) (payload : List Nat) (arrival now fuel : Nat)
  | deliver (now fuel : Nat)
deriving Repr, DecidableEq

def applySessOp (mb skip : Nat) (cb : Bool) (sm : Session × Metrics) :
    SessOp → Session × Metrics
  | .frame seq ts p arrival now fuel =>
    let r := sessRecv mb skip cb sm.1 sm.2 seq ts p arrival now fuel
    (r.1, r.2.1)
  | .deliver now fuel =>
    let r := pump skip now cb fuel sm.1 sm.2
    (r.1, r.2.1)

def applySessOps (mb skip : Nat) (cb : Bool) (sm : Session × Metrics)
    (ops : List SessOp) : Session × Metrics :=
  ops.foldl (applySessOp mb skip cb) sm

/-- A `frame` operation carries a 16-bit sequence number (guaranteed by the
wire decoder for real datagrams). -/
def opValid : SessOp → Prop
  | .frame seq _ _ _ _ _ => seq < 65536
  | .deliver _ _ => True

/-! ### Short-datagram parser lemmas -/

theorem unpack_data_none_of_short (d : List Nat) (h : d.length < 7) :
    unpack_data d = none := by
  match d with
  | [] => rfl
  | [_] => rfl
  | [_, _] => rfl
  | [_, _, _] => rfl
  | [_, _, _, _] => rfl
  | [_, _, _, _, _] => rfl
  | [_, _, _, _, _, _] => rfl
  | _ :: _ :: _ :: _ :: _ :: _ :: _ :: _ =>
    simp only [List.length_cons] at h
    exact absurd h (by omega)

theorem unpack_ack_none_of_short (d : List Nat) (h : d.length < 8) :
    unpack_ack d = none := by
  match d with
  | [] => rfl
  | [_] => rfl
  | [_, _] => rfl
  | [_, _, _] => rfl
  | [_, _, _, _] => rfl
  | [_, _, _, _, _] => rfl
  | [_, _, _, _, _, _] => rfl
  | [_, _, _, _, _, _, _] => rfl
  | _ :: _ :: _ :: _ :: _ :: _ :: _ :: _ :: _ =>
    simp only [List.length_cons] at h
    exact absurd h (by omega)

/-! ### Concrete states used by witnesses and counterexamples -/

def metrics0 : Metrics := ⟨0, 0, 0, 0, 0, 0, 0, 0, 0, 0, 0, 0⟩

/-- An endpoint with no configured peer and no state. -/
def stNoPeer : State := ⟨none, [], [], [], 0, 0, 200, 1024, metrics0⟩

/-- A sender endpoint whose configured peer 1 is not registered. -/
def stPeerUnreg : State := ⟨some 1, [], [], [], 10, 20, 200, 1024, metrics0⟩

def sessOne : Session := ⟨3, [], 0⟩

/-- A receiver endpoint (no configured peer) with one live session. -/
def stRecvBusy : State := ⟨none, [7], [(9, sessOne)], [], 0, 0, 200, 1024, metrics0⟩

def entryA : SentEntry := ⟨[0, 1], 0, 0, false, 0, false, false, none⟩

/-! ### Claims -/

/-- C1: `send` with no configured peer fails with `NoPeer` whatever the
channel selector; a reliable send (the source selects the reliable channel
when the `reliable` argument equals `CHANNEL_RELIABLE`) while the
configured peer is not in the registered set fails with `NotRegistered`,
returning no sequence, transmitting nothing and leaving the state — hence
`sent_reliable` — unchanged; an unreliable send with a configured peer
always proceeds, transmitting one datagram and returning the pair
`(seq, timestamp)`. -/
theorem send_gating (st : State) (p : List Nat) (now : Nat) :
    (st.peer_addr = none → ∀ r, send st p r now = (.noPeer, st, [])) ∧
    (∀ peer, st.peer_addr = some peer → peer ∉ st.registered_peers →
      send st p CHANNEL_RELIABLE now = (.notRegistered, st, [])) ∧
    (∀ peer, st.peer_addr = some peer →
      send st p CHANNEL_UNRELIABLE now =
        (.sent st.next_seq_unreliable now,
          { st with
              next_seq_unreliable := (st.next_seq_unreliable + 1) % 65536,
              metrics := { st.metrics with
                sent_unreliable := st.metrics.sent_unreliable + 1 } },
          [(peer, pack_data CHANNEL_UNRELIABLE st.next_seq_unreliable now p)])) := by
  refine ⟨?_, ?_, ?_⟩
  · intro h r
    simp [send, h]
  · intro peer hp hreg
    simp [send, hp, hreg]
  · intro peer hp
    simp [send, hp, CHANNEL_UNRELIABLE, CHANNEL_RELIABLE]

/-- Witness for `send_gating` at concrete endpoints. -/
theorem send_gating_witness :
    send stNoPeer [7] 0 5 = (.noPeer, stNoPeer, []) ∧
    send stPeerUnreg [7] CHANNEL_RELIABLE 5 = (.notRegistered, stPeerUnreg, []) ∧
    (send stPeerUnreg [7] CHANNEL_UNRELIABLE 5).1 = .sent 20 5 := by
  refine ⟨(send_gating stNoPeer [7] 5).1 rfl 0,
    (send_gating stPeerUnreg [7] 5).2.1 1 rfl (by decide), ?_⟩
  rw [(send_gating stPeerUnreg [7] 5).2.2 1 rfl]
  rfl

/-- C2, which the source violates: the source's ACK parser only requires a
length of at least 8 bytes, so a 9-byte datagram whose second byte is 0xFF
— really a data frame whose sequence number's high byte is 0xFF — is
classified and handled as an ACK, where the claim requires any such longer
datagram to be parsed as a data frame.  The reader dispatch takes the ACK
path on it for every state. -/
theorem ack_length_bug :
    ([0, 255, 0, 1, 0, 0, 0, 2, 65] : List Nat).length = 9 ∧
    unpack_ack [0, 255, 0, 1, 0, 0, 0, 2, 65] = some (1, 2) ∧
    unpack_data [0, 255, 0, 1, 0, 0, 0, 2, 65] = some (0, 65280, 16777216, [2, 65]) ∧
    ∀ st addr now fuel cb,
      recv_step st addr [0, 255, 0, 1, 0, 0, 0, 2, 65] now fuel cb =
        (handle_ack st 1 2, [], []) :=
  ⟨rfl, rfl, rfl, fun _ _ _ _ _ => rfl⟩

/-- C4: one retransmitter tick treats an in-flight entry by exactly one of
the four cases: removal when acked; removal plus a `lost_marked` increment
— and no transmission — once its age reaches the skip threshold; a resend
of the stored original datagram bytes, unchanged, to the entry's resolved
destination, updating `last_send` and incrementing `retransmissions` and
`retrans_count`, once the 50 ms retransmit interval has elapsed; otherwise
no change at all. -/
theorem retrans_tick_cases (peer : Option Addr) (skip now : Nat) (e : SentEntry)
    (m : Metrics) :
    (e.acked = true → tick_entry peer skip now e m = (none, m, [])) ∧
    (e.acked = false → (skip : Int) ≤ (now : Int) - (e.first_send_ms : Int) →
      tick_entry peer skip now e m =
        (none, { m with lost_marked := m.lost_marked + 1 }, [])) ∧
    (e.acked = false → ¬ (skip : Int) ≤ (now : Int) - (e.first_send_ms : Int) →
      (RETX_INTERVAL_MS : Int) ≤ (now : Int) - (e.last_send_ms : Int) →
      ∀ dest, e.addr.orElse (fun _ => peer) = some dest →
        tick_entry peer skip now e m =
          (some { e with last_send_ms := now, retrans_count := e.retrans_count + 1 },
            { m with retransmissions := m.retransmissions + 1 }, [(dest, e.pkt)])) ∧
    (e.acked = false → ¬ (skip : Int) ≤ (now : Int) - (e.first_send_ms : Int) →
      ¬ (RETX_INTERVAL_MS : Int) ≤ (now : Int) - (e.last_send_ms : Int) →
      tick_entry peer skip now e m = (some e, m, [])) := by
  refine ⟨?_, ?_, ?_, ?_⟩
  · intro h
    simp [tick_entry, h]
  · intro h hskip
    simp [tick_entry, h, hskip]
  · intro h hskip hretx dest hdest
    simp [tick_entry, h, hskip, hretx, hdest]
  · intro h hskip hretx
    simp [tick_entry, h, hskip, hretx]

/-- Witness for `retrans_tick_cases`: an aged-out entry is retired without
a resend, and a quiet entry past the retransmit interval is resent. -/
theorem retrans_tick_witness :
    tick_entry (some 1) 200 300 entryA metrics0 =
      (none, { metrics0 with lost_marked := metrics0.lost_marked + 1 }, []) ∧
    tick_entry (some 1) 200 60 entryA metrics0 =
      (some { entryA with last_send_ms := 60, retrans_count := entryA.retrans_count + 1 },
        { metrics0 with retransmissions := metrics0.retransmissions + 1 },
        [(1, entryA.pkt)]) :=
  ⟨(retrans_tick_cases (some 1) 200 300 entryA metrics0).2.1 rfl (by decide),
    (retrans_tick_cases (some 1) 200 60 entryA metrics0).2.2.1 rfl (by decide)
      (by decide) 1 rfl⟩

/-- C5, which the source violates: `stop` does clear the registered-peer
set, but on a receiver endpoint (no configured peer) the session table is
cleared only inside the `if removed == 0` branch — when it is already
empty — so an existing session survives `stop`. -/
theorem stop_sessions_bug :
    stRecvBusy.peer_addr = none ∧
    (stop_state stRecvBusy 0 0).1.registered_peers = [] ∧
    (stop_state stRecvBusy 0 0).1.sessions = [(9, sessOne)] :=
  ⟨rfl, rfl, rfl⟩

/-- C6 counterexample: a 3-byte datagram — shorter than the 7-byte data
header and not an ACK — is dropped, but `invalid_packets` is left at 0
rather than incremented as the claim requires. -/
theorem short_frame_not_counted :
    recv_step stPeerUnreg 1 [0, 1, 2] 0 0 false = (stPeerUnreg, [], []) ∧
    stPeerUnreg.metrics.invalid_packets = 0 ∧
    ¬ (recv_step stPeerUnreg 1 [0, 1, 2] 0 0 false).1.metrics.invalid_packets =
        stPeerUnreg.metrics.invalid_packets + 1 :=
  ⟨rfl, rfl, by decide⟩

/-- C6 amended: a datagram shorter than the 7-byte data header (necessarily
not an ACK) is dropped with no delivery, no output and no state change — in
particular `invalid_packets` is not incremented; a datagram that fails the
ACK check and parses as a data frame with a channel byte outside {0,1,2,3}
is dropped with no delivery and no output, its only effect incrementing
`invalid_packets`. -/
theorem malformed_frame_handling (st : State) (addr : Addr) (d : List Nat)
    (now fuel : Nat) (cb : Bool) :
    (d.length < 7 → recv_step st addr d now fuel cb = (st, [], [])) ∧
    (∀ ch seq ts p, unpack_ack d = none → unpack_data d = some (ch, seq, ts, p) →
      ch ≠ CHANNEL_RELIABLE → ch ≠ CHANNEL_UNRELIABLE → ch ≠ CHANNEL_REGISTER →
      ch ≠ CHANNEL_DEREGISTER →
      recv_step st addr d now fuel cb =
        ({ st with metrics := { st.metrics with
            invalid_packets := st.metrics.invalid_packets + 1 } },
          [], [])) := by
  constructor
  · intro h
    simp [recv_step, unpack_ack_none_of_short d (by omega),
      unpack_data_none_of_short d h]
  · intro ch seq ts p hack hdat h0 h1 h2 h3
    simp [recv_step, hack, hdat, h0, h1, h2, h3]

/-- Witness for `malformed_frame_handling`: a 2-byte datagram and a 7-byte
frame with channel 9. -/
theorem malformed_frame_handling_witness :
    recv_step stPeerUnreg 1 [1, 2] 0 0 false = (stPeerUnreg, [], []) ∧
    recv_step stPeerUnreg 1 [9, 0, 0, 0, 0, 0, 0] 0 0 false =
      ({ stPeerUnreg with metrics := { stPeerUnreg.metrics with
          invalid_packets := stPeerUnreg.metrics.invalid_packets + 1 } },
        [], []) :=
  ⟨(malformed_frame_handling stPeerUnreg 1 [1, 2] 0 0 false).1 (by decide),
    (malformed_frame_handling stPeerUnreg 1 [9, 0, 0, 0, 0, 0, 0] 0 0 false).2
      9 0 0 [] (by decide) (by decide) (by decide) (by decide) (by decide) (by decide)⟩

/-- C3: each iteration of the in-order delivery pump does exactly one of:
deliver the entry at expected-next — removing it, advancing expected-next
by 1 mod 2^16 and incrementing `recv_reliable`, identically whether or not
the (caught) callback raises; or, when nothing is at expected-next and the
buffer is non-empty, pick the buffered sequence `s` of minimal forward
distance from expected-next (minimal against every buffered `s'`) and, if
its entry has waited at least `skip_threshold`, set expected-next to `s`
and increment `lost_marked` by exactly one; or otherwise stop with no
change. -/
theorem pump_step_cases (skip now : Nat) (cb : Bool) (sess : Session) (m : Metrics) :
    (∀ info, alistGet sess.recv_buffer sess.recv_next_expected = some info →
      pump_step skip now cb sess m =
        ({ sess with
            recv_buffer := alistErase sess.recv_buffer sess.recv_next_expected,
            recv_next_expected := (sess.recv_next_expected + 1) % 65536 },
          { m with recv_reliable := m.recv_reliable + 1 },
          .delivered sess.recv_next_expected info.ts info.payload)) ∧
    (alistGet sess.recv_buffer sess.recv_next_expected = none →
      sess.recv_buffer ≠ [] →
      ∃ s einfo,
        minBy (fun x => fdist x sess.recv_next_expected)
          (sess.recv_buffer.map Prod.fst) = some s ∧
        alistGet sess.recv_buffer s = some einfo ∧
        (∀ s' ∈ sess.recv_buffer.map Prod.fst,
          fdist s sess.recv_next_expected ≤ fdist s' sess.recv_next_expected) ∧
        ((skip : Int) ≤ (now : Int) - (einfo.arrival : Int) →
          pump_step skip now cb sess m =
            ({ sess with recv_next_expected := s },
              { m with lost_marked := m.lost_marked + 1 }, .skipped s)) ∧
        (¬ (skip : Int) ≤ (now : Int) - (einfo.arrival : Int) →
          pump_step skip now cb sess m = (sess, m, .stop))) ∧
    (sess.recv_buffer = [] → pump_step skip now cb sess m = (sess, m, .stop)) := by
  refine ⟨?_, ?_, ?_⟩
  · intro info hget
    exact pump_step_eq_deliver skip now cb sess m info hget
  · intro hget hne
    have hkeys : sess.recv_buffer.map Prod.fst ≠ [] := by
      intro hnil
      exact hne (List.map_eq_nil_iff.1 hnil)
    obtain ⟨s, hmin, hmem, hminle⟩ := minBy_spec _ _ hkeys
    obtain ⟨einfo, hein⟩ := alistGet_isSome_of_mem _ _ hmem
    refine ⟨s, einfo, hmin, hein, hminle, ?_, ?_⟩
    · intro hc
      exact pump_step_eq_skip skip now cb sess m s einfo hget hmin hein hc
    · intro hc
      exact pump_step_eq_stop_wait skip now cb sess m s einfo hget hmin hein hc
  · intro hempty
    refine pump_step_eq_stop_empty skip now cb sess m ?_ ?_
    · rw [hempty]; rfl
    · rw [hempty]; rfl

def sessD : Session := ⟨3, [(3, ⟨1, [2], 0⟩)], 0⟩

def sessW : Session := ⟨3, [(5, ⟨1, [2], 0⟩)], 0⟩

/-- Witness for `pump_step_cases`: a delivery at expected-next, and a skip
to the minimal buffered sequence after the threshold elapsed. -/
theorem pump_step_cases_witness :
    pump_step 200 0 false sessD metrics0 =
      ({ sessD with
          recv_buffer := alistErase sessD.recv_buffer sessD.recv_next_expected,
          recv_next_expected := (sessD.recv_next_expected + 1) % 65536 },
        { metrics0 with recv_reliable := metrics0.recv_reliable + 1 },
        .delivered sessD.recv_next_expected 1 [2]) ∧
    pump_step 200 300 false sessW metrics0 =
      ({ sessW with recv_next_expected := 5 },
        { metrics0 with lost_marked := metrics0.lost_marked + 1 }, .skipped 5) := by
  refine ⟨(pump_step_cases 200 0 false sessD metrics0).1 ⟨1, [2], 0⟩ rfl, ?_⟩
  obtain ⟨s, einfo, hmin, hein, hminle, hs, hw⟩ :=
    (pump_step_cases 200 300 false sessW metrics0).2.1 rfl (by decide)
  have hs5 : s = 5 := by
    have h : some (5 : Nat) = some s := by rw [← hmin]; rfl
    exact (Option.some.inj h).symm
  subst hs5
  have he : einfo = ⟨1, [2], 0⟩ := by
    have h : some (⟨1, [2], 0⟩ : BufEntry) = some einfo := by rw [← hein]; rfl
    exact (Option.some.inj h).symm
  subst he
  exact hs (by decide)

/-- C7: under the admission rule `(seq − expected) mod 2^16 < max_buffered`
with `max_buffered ≤ 2^16`, every sequence of reliable-frame receptions and
delivery-pump runs preserves the window invariant — every buffered
sequence lies within forward distance `max_buffered` of the current
expected-next — and the reorder buffer never holds more than
`max_buffered` entries. -/
theorem reorder_buffer_invariant (mb skip : Nat) (cb : Bool) (ops : List SessOp)
    (sess : Session) (m : Metrics) (hmb : mb ≤ 65536) (hI : seqWindow mb sess)
    (hops : ∀ op ∈ ops, opValid op) :
    seqWindow mb (applySessOps mb skip cb (sess, m) ops).1 ∧
    (applySessOps mb skip cb (sess, m) ops).1.recv_buffer.length ≤ mb := by
  have hpres : ∀ (l : List SessOp) (s0 : Session) (m0 : Metrics),
      seqWindow mb s0 → (∀ op ∈ l, opValid op) →
      seqWindow mb (applySessOps mb skip cb (s0, m0) l).1 := by
    intro l
    induction l with
    | nil => intro s0 m0 h _; exact h
    | cons op rest ih =>
      intro s0 m0 h hl
      have hop := hl op (List.mem_cons_self op rest)
      have hrest : ∀ o ∈ rest, opValid o := fun o ho => hl o (List.mem_cons_of_mem op ho)
      unfold applySessOps
      rw [List.foldl_cons]
      cases op with
      | frame seq ts p arrival now fuel =>
        exact ih _ _ (sessRecv_preserves mb skip cb s0 m0 seq ts p arrival now fuel hop h)
          hrest
      | deliver now fuel =>
        exact ih _ _ (pump_preserves mb skip now cb fuel s0 m0 h) hrest
  have h := hpres ops sess m hI hops
  exact ⟨h, seqWindow_length_le mb _ h⟩

/-- Witness for `reorder_buffer_invariant`: frames 6 then 5 arrive at a
session expecting 5, then the pump delivers both. -/
theorem reorder_buffer_invariant_witness :
    seqWindow 1024 (applySessOps 1024 200 false (⟨5, [], 0⟩, metrics0)
      [.frame 6 0 [1] 0 0 4, .frame 5 0 [2] 1 1 4, .deliver 2 4]).1 ∧
    (applySessOps 1024 200 false (⟨5, [], 0⟩, metrics0)
      [.frame 6 0 [1] 0 0 4, .frame 5 0 [2] 1 1 4, .deliver 2 4]).1.recv_buffer.length ≤
      1024 := by
  refine reorder_buffer_invariant 1024 200 false _ ⟨5, [], 0⟩ metrics0 (by omega) ?_ ?_
  · unfold seqWindow
    exact ⟨by simp, by decide, by simp⟩
  · intro op hop
    rcases List.mem_cons.1 hop with rfl | hop
    · show (6 : Nat) < 65536
      omega
    · rcases List.mem_cons.1 hop with rfl | hop
      · show (5 : Nat) < 65536
        omega
      · rcases List.mem_cons.1 hop with rfl | hop
        · trivial
        · simp at hop

/-- C8: the receiver-side REGISTER handler always ACKs — echoing the
frame's sequence and timestamp — and always increments `recv_reg`; it adds
the sender address and increments `registrations` only when the address is
not yet registered; it creates a session with expected-next
`(seq + 1) mod 2^16` only when none exists, never overwriting an existing
session's expected-next; hence handling the same REGISTER twice leaves the
registered set, `registrations` and expected-next exactly as after
handling it once. -/
theorem register_idempotent (st : State) (addr : Addr) (seq ts now now' : Nat) :
    (handle_registration st addr seq ts now).2 = [(addr, pack_ack seq ts)] ∧
    (handle_registration st addr seq ts now).1.metrics.recv_reg =
      st.metrics.recv_reg + 1 ∧
    (addr ∈ st.registered_peers →
      (handle_registration st addr seq ts now).1.registered_peers =
          st.registered_peers ∧
        (handle_registration st addr seq ts now).1.metrics.registrations =
          st.metrics.registrations) ∧
    (addr ∉ st.registered_peers →
      addr ∈ (handle_registration st addr seq ts now).1.registered_peers ∧
        (handle_registration st addr seq ts now).1.metrics.registrations =
          st.metrics.registrations + 1) ∧
    (alistGet st.sessions addr = none →
      (alistGet (handle_registration st addr seq ts now).1.sessions addr).map
          Session.recv_next_expected = some ((seq + 1) % 65536)) ∧
    (∀ s, alistGet st.sessions addr = some s →
      (alistGet (handle_registration st addr seq ts now).1.sessions addr).map
          Session.recv_next_expected = some s.recv_next_expected) ∧
    ((handle_registration (handle_registration st addr seq ts now).1
          addr seq ts now').1.registered_peers =
        (handle_registration st addr seq ts now).1.registered_peers ∧
      (handle_registration (handle_registration st addr seq ts now).1
          addr seq ts now').1.metrics.registrations =
        (handle_registration st addr seq ts now).1.metrics.registrations ∧
      (alistGet (handle_registration (handle_registration st addr seq ts now).1
            addr seq ts now').1.sessions addr).map Session.recv_next_expected =
        (alistGet (handle_registration st addr seq ts now).1.sessions addr).map
          Session.recv_next_expected) := by
  refine ⟨rfl, ?_, ?_, ?_, ?_, ?_, ?_⟩
  · by_cases hmem : addr ∈ st.registered_peers <;>
      simp [handle_registration, hmem]
  · intro hmem
    simp [handle_registration, hmem]
  · intro hmem
    simp [handle_registration, hmem]
  · intro hsess
    by_cases hmem : addr ∈ st.registered_peers <;>
      simp [handle_registration, hsess, hmem, alistGet_set_self]
  · intro s hsess
    by_cases hmem : addr ∈ st.registered_peers <;>
      simp [handle_registration, hsess, hmem, alistGet_set_self]
  · by_cases hmem : addr ∈ st.registered_peers <;>
      cases hsess : alistGet st.sessions addr <;>
      simp [handle_registration, hmem, hsess, alistGet_set_self]

/-- Witness for `register_idempotent`: a first REGISTER from address 5. -/
theorem register_idempotent_witness :
    (handle_registration stPeerUnreg 5 10 3 0).2 = [(5, pack_ack 10 3)] ∧
    5 ∈ (handle_registration stPeerUnreg 5 10 3 0).1.registered_peers ∧
    (alistGet (handle_registration stPeerUnreg 5 10 3 0).1.sessions 5).map
      Session.recv_next_expected = some ((10 + 1) % 65536) :=
  ⟨(register_idempotent stPeerUnreg 5 10 3 0 0).1,
    ((register_idempotent stPeerUnreg 5 10 3 0 0).2.2.2.1 (by decide)).1,
    (register_idempotent stPeerUnreg 5 10 3 0 0).2.2.2.2.1 rfl⟩

/-- C10: a reliable frame with sequence `seq` for which no session exists
creates one on the fly with expected-next `(seq + 1) mod 2^16` and sends an
ACK for `seq`, but the frame itself is admission-rejected — its forward
distance is `2^16 − 1`, at least `max_buffered` — so nothing is buffered,
no delivery happens, and the metrics (in particular `recv_reliable`) are
untouched. -/
theorem fresh_session_rejects_first_frame (st : State) (addr : Addr) (seq ts : Nat)
    (p : List Nat) (arrival now fuel : Nat) (cb : Bool)
    (hmb : st.max_buffered ≤ 65535) (hseq : seq < 65536)
    (hnos : alistGet st.sessions addr = none) :
    handle_reliable st addr seq ts p arrival now fuel cb =
      ({ st with
          sessions := alistSet st.sessions addr ⟨(seq + 1) % 65536, [], arrival⟩ },
        [(addr, pack_ack seq ts)], []) := by
  have hf : fdist seq ((seq + 1) % 65536) = 65535 := by
    unfold fdist; omega
  have hadm : ¬ fdist seq ((seq + 1) % 65536) < st.max_buffered := by
    rw [hf]; omega
  simp [handle_reliable, hnos, sessRecv, hadm, pump_empty]

/-- Witness for `fresh_session_rejects_first_frame`. -/
theorem fresh_session_rejects_witness :
    handle_reliable stPeerUnreg 1 9 2 [5] 3 3 4 false =
      ({ stPeerUnreg with
          sessions := alistSet stPeerUnreg.sessions 1 ⟨(9 + 1) % 65536, [], 3⟩ },
        [(1, pack_ack 9 2)], []) :=
  fresh_session_rejects_first_frame stPeerUnreg 1 9 2 [5] 3 3 4 false
    (by decide) (by decide) rfl

end HUDP
